import Mathlib

/-! Verification development for `requests` (`m.go`)

A shallow embedding of the query helpers, the body encoder, the request
pipeline and the session cookie jar of `m.go`, and the properties proved
about them.

Conventions of the embedding.

* A Go `string` is a `Str`, a list of characters.  The only separators the
  program splits or joins on are the single ASCII bytes `&` and `=`; in UTF-8
  such a byte never occurs inside a multi-byte character, so cutting at the
  character agrees with cutting at the byte.
* A Go `map` is an association list whose order is the order in which `range`
  yields the entries; a property stated for every such list covers every
  iteration order.
* A run-time panic is the result `none`.
* The libraries (`net/http`, `encoding/json`, `fmt`) are not part of the
  program: what they compute is a parameter of the definitions that call them.
  For `json.Marshal` the parameter is instantiated with `jsonMarshal`, the
  encoding of the library on the values the embedding tells apart.
-/

namespace Requests

/-- A Go string. -/
abbrev Str := List Char

/-! ## `strings.Split` and `strings.Join` with a one-byte separator -/

/-- `strings.Split(s, sep)` for a separator of one character: the pieces of `s`
between the occurrences of `sep`, one more piece than there are occurrences. -/
def Split (sep : Char) : Str → List Str
  | [] => [[]]
  | c :: cs =>
    if c = sep then [] :: Split sep cs
    else
      match Split sep cs with
      | [] => [[c]]
      | p :: ps => (c :: p) :: ps

/-- `strings.Join(elems, sep)` for a separator of one character. -/
def Join (sep : Char) : List Str → Str
  | [] => []
  | [a] => a
  | a :: b :: rest => a ++ sep :: Join sep (b :: rest)

/-! ## Go maps as association lists -/

/-- `m[k]` with the comma-ok form: the value stored under `k`, if any. -/
def mapGet {β : Type} : List (Str × β) → Str → Option β
  | [], _ => none
  | (k', v) :: rest, k => if k' = k then some v else mapGet rest k

/-- `m[k] = v`: overwrite the entry of `k` when there is one, add it otherwise. -/
def mapSet {β : Type} : List (Str × β) → Str → β → List (Str × β)
  | [], k, v => [(k, v)]
  | (k', v') :: rest, k, v =>
    if k' = k then (k, v) :: rest else (k', v') :: mapSet rest k v

/-! ## Dynamically typed values (`any`) -/

/-- A value of type `any`, as far as the type switches of the program tell
values apart: a `string`, a `map[string]any`, an integer, the nil interface,
or a value of some other dynamic type (identified by a tag). -/
inductive GoAny where
  | str (s : Str)
  | dict (m : List (Str × GoAny))
  | int (n : Int)
  | nil
  | other (tag : Nat)

/-! ## Query helpers -/

/-- `MapToQuery`: each entry yields `k + "=" + fmt.Sprintf("%v", v)`, the
pieces are joined with `&`.  `sprint` is `fmt.Sprintf("%v", ·)`; `value` lists
the entries in the order `range` yields them. -/
def MapToQuery (sprint : GoAny → Str) (value : List (Str × GoAny)) : Str :=
  Join '&' (value.map fun kv => kv.1 ++ '=' :: sprint kv.2)

/-- The loop of `QueryToMap` over the `&`-separated pieces: each piece is split
at `=`, and `res[vv[0]] = vv[1]` is executed; `vv[1]` panics when the piece has
no `=`. -/
def QueryToMap.loop : List Str → List (Str × Str) → Option (List (Str × Str))
  | [], res => some res
  | v :: arr, res =>
    match Split '=' v with
    | k :: x :: _ => QueryToMap.loop arr (mapSet res k x)
    | _ => none

/-- `QueryToMap`. -/
def QueryToMap (str : Str) : Option (List (Str × Str)) :=
  QueryToMap.loop (Split '&' str) []

/-! ## Request arguments and the encoder -/

/-- An `http.Cookie`, with the fields the program reads or writes and the
attributes that travel with them. -/
structure Cookie where
  Name : Str
  Value : Str
  Path : Str
  Domain : Str
  Secure : Bool
  HttpOnly : Bool
deriving DecidableEq, Repr

/-- `Args`.  `Timeout` is a `float32` the program never reads; it is kept as
its bit pattern. -/
structure Args where
  Params : GoAny
  Data : GoAny
  Json : GoAny
  Headers : List (Str × Str)
  Cookies : List Cookie
  Files : List (Str × Str)
  Auth : Str
  Timeout : Nat
  AllowRedirects : Bool
  Proxies : Str
  Verify : Bool
  Stream : Bool
  Cert : GoAny

/-- The zero value `Args{}`. -/
def Args.zero : Args :=
  { Params := .nil, Data := .nil, Json := .nil, Headers := [], Cookies := [], Files := [],
    Auth := [], Timeout := 0, AllowRedirects := false, Proxies := [], Verify := false,
    Stream := false, Cert := .nil }

/-- `header[key]` on a `map[string]string`: the zero value `""` when the key is
absent. -/
def headerIndex (header : List (Str × Str)) (key : Str) : Str :=
  (mapGet header key).getD []

/-- `getParamStr`. -/
def getParamStr (sprint : GoAny → Str) (params : GoAny) : Str :=
  match params with
  | .str s => s
  | .dict value => Join '&' (value.map fun kv => kv.1 ++ '=' :: sprint kv.2)
  | _ => []

/-- `getData`.  `marshal` is `json.Marshal(&data)`, returning the bytes and the
error; the program drops the error and converts the bytes to a string. -/
def getData (marshal : GoAny → Str × Option Str) (sprint : GoAny → Str)
    (data : GoAny) (header : List (Str × Str)) : Str :=
  if headerIndex header "Content-Type".toList = "application/json".toList then
    (marshal data).1
  else
    match data with
    | .str s => s
    | .dict value => MapToQuery sprint value
    | _ => []

/-! ## `json.Marshal` on the values of `GoAny` -/

/-- The hexadecimal digit of a number below 16, in lower case. -/
def hexDigit (n : Nat) : Char :=
  "0123456789abcdef".toList.getD n '0'

/-- How `encoding/json` writes one character inside a string literal: the
quote and the backslash get a backslash, the control characters their short
escape or `\u00xx`, the characters `<`, `>`, `&` are written `\u00xx` as
well (HTML escaping is on in `json.Marshal`), the line and paragraph
separators `\u2028`, `\u2029`, and every other character stands for itself. -/
def jsonEscape (c : Char) : Str :=
  if c = '"' then [Char.ofNat 92, '"']
  else if c = Char.ofNat 92 then [Char.ofNat 92, Char.ofNat 92]
  else if c = Char.ofNat 8 then [Char.ofNat 92, 'b']
  else if c = Char.ofNat 12 then [Char.ofNat 92, 'f']
  else if c = Char.ofNat 10 then [Char.ofNat 92, 'n']
  else if c = Char.ofNat 13 then [Char.ofNat 92, 'r']
  else if c = Char.ofNat 9 then [Char.ofNat 92, 't']
  else if c.toNat < 32 ∨ c = '<' ∨ c = '>' ∨ c = '&' then
    [Char.ofNat 92, 'u', '0', '0', hexDigit (c.toNat / 16), hexDigit (c.toNat % 16)]
  else if c.toNat = 8232 ∨ c.toNat = 8233 then
    [Char.ofNat 92, 'u', '2', '0', '2', hexDigit (c.toNat % 16)]
  else [c]

/-- A JSON string literal: the escaped characters between two quotes. -/
def jsonString (s : Str) : Str :=
  '"' :: s.flatMap jsonEscape ++ ['"']

/-- A JSON object of fields already encoded: `encoding/json` writes the
entries of a map sorted by key, each as the key's string literal, a colon and
the value, with commas between them, in braces. -/
def jsonObject (fields : List (Str × Str)) : Str :=
  '{' :: Join ','
    ((fields.insertionSort fun a b => a.1 ≤ b.1).map fun kv => jsonString kv.1 ++ ':' :: kv.2)
    ++ ['}']

mutual
/-- The JSON text of a value, `none` when `encoding/json` reports an error: a
string is a string literal, an integer its decimal digits, the nil interface
`null`, a map an object (an error when a value of it is one).  `other` is what
the library gives for a value of another dynamic type.  A nil map, which the
library writes `null`, is not told apart from the empty map. -/
def jsonEncode (other : Nat → Option Str) : GoAny → Option Str
  | .str s => some (jsonString s)
  | .int n => some (toString n).toList
  | .nil => some "null".toList
  | .other tag => other tag
  | .dict m => (jsonEncodeFields other m).map jsonObject
/-- The entries of a map with their values encoded. -/
def jsonEncodeFields (other : Nat → Option Str) :
    List (Str × GoAny) → Option (List (Str × Str))
  | [] => some []
  | (k, v) :: rest =>
    match jsonEncode other v, jsonEncodeFields other rest with
    | some e, some es => some ((k, e) :: es)
    | _, _ => none
end

/-- `json.Marshal(&data)` on the values of `GoAny`: the bytes and no error, or
no bytes and the error. -/
def jsonMarshal (other : Nat → Option Str) (data : GoAny) : Str × Option Str :=
  match jsonEncode other data with
  | some bytes => (bytes, none)
  | none => ([], some "json: unsupported type".toList)

/-! ## The HTTP client and the request pipeline -/

/-- The one function literal the program installs as `client.CheckRedirect`:
`func(req, via) error { return http.ErrUseLastResponse }`. -/
inductive CheckRedirectFn where
  | returnErrUseLastResponse
deriving DecidableEq, Repr

/-- The fields of `http.Client` the program sets.  `Timeout` is a
`time.Duration`, a number of nanoseconds.  `Proxy` is `none` for
`http.DefaultTransport` and `some p` for a transport built from
`http.ProxyURL` of the parsed `p`.  `CheckRedirect` is `none` for the nil
function. -/
structure Client where
  Timeout : Int
  Proxy : Option Str
  CheckRedirect : Option CheckRedirectFn
deriving DecidableEq, Repr

/-- `time.Second`, in nanoseconds. -/
def Second : Int := 1000000000

/-- `time.Duration.Seconds`: `float64(d / Second) + float64(d % Second) / 1e9`,
with Go's truncating integer division.  The `float64` is a rational here. -/
def Duration.Seconds (d : Int) : ℚ :=
  ((Int.tdiv d Second : Int) : ℚ) + ((Int.tmod d Second : Int) : ℚ) / 1000000000

/-- The conversion `time.Duration(f)` of a `float64` to the integer type:
the fraction is discarded (truncation toward zero). -/
def Duration.ofFloat (f : ℚ) : Int :=
  if 0 ≤ f then ⌊f⌋ else ⌈f⌉

/-- The client `Request` configures: lines 109-111, the redirect branches of
lines 133-144 and the proxy branch of lines 168-174. -/
def Request.client (args : List Args) : Client :=
  let client : Client :=
    { Timeout := Duration.ofFloat (Duration.Seconds 1), Proxy := none, CheckRedirect := none }
  match args with
  | arg :: _ =>
    let client :=
      if !arg.AllowRedirects then
        { client with CheckRedirect := some CheckRedirectFn.returnErrUseLastResponse }
      else client
    if arg.Proxies ≠ [] then { client with Proxy := some arg.Proxies } else client
  | [] => { client with CheckRedirect := some CheckRedirectFn.returnErrUseLastResponse }

/-- The request handed to `client.Do`: what `http.NewRequest` is called with,
and the headers and cookies set on it afterwards. -/
structure HttpRequest where
  Method : Str
  URL : Str
  Body : Option Str
  Header : List (Str × Str)
  Cookies : List Cookie
deriving DecidableEq, Repr

/-- The request `Request` builds: lines 117-131, 146 and 152-166. -/
def Request.request (marshal : GoAny → Str × Option Str) (sprint : GoAny → Str)
    (method urlStr : Str) (args : List Args) : HttpRequest :=
  match args with
  | arg :: _ =>
    let paramStr := getParamStr sprint arg.Params
    let urlStr := if paramStr ≠ [] then urlStr ++ '?' :: paramStr else urlStr
    let data := getData marshal sprint arg.Data arg.Headers
    let bodyReq := if data ≠ [] then some data else none
    { Method := method, URL := urlStr, Body := bodyReq, Header := arg.Headers,
      Cookies := arg.Cookies }
  | [] => { Method := method, URL := urlStr, Body := none, Header := [], Cookies := [] }

/-- The `*http.Response` as the program reads it: the status, the header map
(canonical keys), the cookies `resp.Cookies()` parses from `Set-Cookie`, the
body stream (the bytes `ioutil.ReadAll` yields from it) and `resp.Request.Host`. -/
structure HttpResponse where
  StatusCode : Int
  Header : List (Str × List Str)
  Cookies : List Cookie
  Body : Str
  RequestHost : Str
deriving DecidableEq, Repr

/-- `http.Header.Get` at a key given in canonical form: the first value stored
under the key, `""` when there is none. -/
def HeaderGet (h : List (Str × List Str)) (key : Str) : Str :=
  match mapGet h key with
  | some (v :: _) => v
  | _ => []

/-- The outcome of `client.Do`: an error (with the response, when there is
one), or a response. -/
inductive DoResult where
  | err (msg : Str) (resp : Option HttpResponse)
  | ok (resp : HttpResponse)

/-- `Response`.  `RespBody` holds the open body stream, `none` for nil. -/
structure Response where
  StatusCode : Int
  Text : Str
  Content : Str
  Header : List (Str × List Str)
  Cookies : List Cookie
  CookiesUrl : Str
  RespBody : Option Str
deriving DecidableEq, Repr

/-- The zero value `Response{}`. -/
def Response.zero : Response :=
  { StatusCode := 0, Text := [], Content := [], Header := [], Cookies := [], CookiesUrl := [],
    RespBody := none }

/-- Lines 189-203 of `Request`: the `Response` made of a transport response.
`resp.Header.Get("Content-type")` reads the canonical key `Content-Type`. -/
def Request.respond (resp : HttpResponse) : Response :=
  let response : Response :=
    { Response.zero with
      StatusCode := resp.StatusCode, Header := resp.Header, Cookies := resp.Cookies }
  if "text/event-stream".toList = HeaderGet resp.Header "Content-Type".toList then
    { response with RespBody := some resp.Body }
  else
    { response with
      Content := resp.Body, Text := resp.Body,
      Cookies := response.Cookies.map fun c => { c with Domain := resp.RequestHost } }

/-- `Request`.  `Do` is `client.Do`. -/
def Request (Do : Client → HttpRequest → DoResult) (marshal : GoAny → Str × Option Str)
    (sprint : GoAny → Str) (method urlStr : Str) (args : List Args) : Response :=
  match Do (Request.client args) (Request.request marshal sprint method urlStr args) with
  | .err msg resp =>
    { Response.zero with
      Text := msg,
      StatusCode := match resp with
        | some r => r.StatusCode
        | none => 0 }
  | .ok resp => Request.respond resp

/-- `Response.GetCookie`, on the cookie list: the value of the first cookie of
that name, `""` when there is none. -/
def GetCookie : List Cookie → Str → Str
  | [], _ => []
  | c :: rest, name => if c.Name = name then c.Value else GetCookie rest name

/-- `Response.GetCookie`. -/
def Response.GetCookie (r : Response) (name : Str) : Str :=
  Requests.GetCookie r.Cookies name

/-! ## The session and its cookie jar -/

/-- `SessionStruct`. -/
structure SessionStruct where
  Cookies : List Cookie
deriving DecidableEq, Repr

/-- `Session()`. -/
def Session : SessionStruct := { Cookies := [] }

/-- The inner loop of `UpdateCookies`: the first index `j` with
`name == jar[j].Name`, `none` for the `-1` of the program. -/
def UpdateCookies.index (name : Str) : List Cookie → Option Nat
  | [] => none
  | c :: rest => if name = c.Name then some 0 else (UpdateCookies.index name rest).map (· + 1)

/-- One turn of the outer loop of `UpdateCookies`. -/
def UpdateCookies.step (jar : List Cookie) (c : Cookie) : List Cookie :=
  match UpdateCookies.index c.Name jar with
  | none => jar ++ [c]
  | some j => jar.set j c

/-- `SessionStruct.UpdateCookies`. -/
def SessionStruct.UpdateCookies (ss : SessionStruct) (cookies : List Cookie) : SessionStruct :=
  { Cookies := cookies.foldl UpdateCookies.step ss.Cookies }

/-- `args[0].Cookies = cookies`. -/
def setFirstCookies (cookies : List Cookie) : List Args → List Args
  | [] => []
  | arg :: rest => { arg with Cookies := cookies } :: rest

/-- Lines 281-285 of `SessionStruct.Request`: the session after the cookies of
the call are stored, and the arguments handed to `Request`. -/
def SessionStruct.prepare (ss : SessionStruct) (args : List Args) :
    SessionStruct × List Args :=
  let args := if args.length = 0 then args ++ [Args.zero] else args
  let ss := ss.UpdateCookies (args.headD Args.zero).Cookies
  (ss, setFirstCookies ss.Cookies args)

/-- `SessionStruct.Request`: the response and the session afterwards. -/
def SessionStruct.Request (Do : Client → HttpRequest → DoResult)
    (marshal : GoAny → Str × Option Str) (sprint : GoAny → Str)
    (ss : SessionStruct) (method urlStr : Str) (args : List Args) :
    SessionStruct × Response :=
  let (ss, args) := ss.prepare args
  let res := Requests.Request Do marshal sprint method urlStr args
  (ss.UpdateCookies res.Cookies, res)

/-- The cookie lists applied one after the other with `UpdateCookies`. -/
def applyAll (ss : SessionStruct) (lists : List (List Cookie)) : SessionStruct :=
  lists.foldl SessionStruct.UpdateCookies ss

/-- The last cookie of the list with the given name. -/
def lastNamed (name : Str) (cookies : List Cookie) : Option Cookie :=
  (cookies.filter fun c => c.Name = name).getLast?

/-- The cookies of the list with the given name, in the order of the list. -/
def allNamed (name : Str) (cookies : List Cookie) : List Cookie :=
  cookies.filter fun c => c.Name = name

/-- The first cookie of the list with the given name, the one `GetCookie`
reads the value of. -/
def firstNamed (name : Str) (cookies : List Cookie) : Option Cookie :=
  cookies.find? fun c => c.Name = name

/-- The arguments with the `Stream` flag of the first one set to `b`. -/
def setFirstStream (b : Bool) : List Args → List Args
  | [] => []
  | arg :: rest => { arg with Stream := b } :: rest

/-! ## Sample values -/

/-- A rendering of values for the examples: a string prints as itself, an
integer in decimal, as `%v` does. -/
def sprintSample : GoAny → Str
  | .str s => s
  | .int n => (toString n).toList
  | _ => []

/-- The `json.Marshal` of the examples: `jsonMarshal` where every value of
another dynamic type is one the library cannot encode. -/
def marshalSample : GoAny → Str × Option Str :=
  jsonMarshal fun _ => none

/-- A cookie with a name and a value. -/
def mkCookie (name value : String) : Cookie :=
  { Name := name.toList, Value := value.toList, Path := [], Domain := [], Secure := false,
    HttpOnly := false }

/-- A transport that answers every request with the given response. -/
def DoConst (resp : HttpResponse) : Client → HttpRequest → DoResult :=
  fun _ _ => DoResult.ok resp

/-- A buffered response from `localhost:8080` whose `Set-Cookie` carried
`Domain=example.com`. -/
def respBuffered : HttpResponse :=
  { StatusCode := 200,
    Header := [("Content-Type".toList, ["text/html".toList])],
    Cookies := [{ mkCookie "sid" "1" with Domain := "example.com".toList }],
    Body := "hi".toList,
    RequestHost := "localhost:8080".toList }

/-- An event-stream response. -/
def respStream : HttpResponse :=
  { StatusCode := 200,
    Header := [("Content-Type".toList, ["text/event-stream".toList])],
    Cookies := [],
    Body := "data: 1".toList,
    RequestHost := "localhost:8080".toList }

/-! ## Lemmas on `Split` and `Join` -/

theorem Split_ne_nil (sep : Char) (s : Str) : Split sep s ≠ [] := by
  induction s with
  | nil => simp [Split]
  | cons c cs ih =>
    unfold Split
    split
    · simp
    · split <;> simp

theorem Split_of_not_mem (sep : Char) (s : Str) (h : sep ∉ s) : Split sep s = [s] := by
  induction s with
  | nil => rfl
  | cons c cs ih =>
    have hc : c ≠ sep := fun e => h (by simp [e])
    have hcs : sep ∉ cs := fun e => h (by simp [e])
    simp [Split, hc, ih hcs]

theorem Split_append_sep (sep : Char) (a b : Str) (h : sep ∉ a) :
    Split sep (a ++ sep :: b) = a :: Split sep b := by
  induction a with
  | nil => simp [Split]
  | cons c cs ih =>
    have hc : c ≠ sep := fun e => h (by simp [e])
    have hcs : sep ∉ cs := fun e => h (by simp [e])
    simp [Split, hc, ih hcs]

theorem Split_Join (sep : Char) (ps : List Str) (hne : ps ≠ [])
    (h : ∀ p ∈ ps, sep ∉ p) : Split sep (Join sep ps) = ps := by
  induction ps with
  | nil => exact absurd rfl hne
  | cons a rest ih =>
    cases rest with
    | nil => exact Split_of_not_mem sep a (h a (by simp))
    | cons b rest =>
      have hrest : ∀ p ∈ b :: rest, sep ∉ p := fun p hp => h p (by simp [hp])
      simp only [Join]
      rw [Split_append_sep sep a _ (h a (by simp)), ih (by simp) hrest]

theorem Split_length (sep : Char) (s : Str) : (Split sep s).length = s.count sep + 1 := by
  induction s with
  | nil => rfl
  | cons c cs ih =>
    unfold Split
    by_cases hc : c = sep
    · subst hc
      simp [ih]
    · have hne := Split_ne_nil sep cs
      simp only [hc, if_false]
      cases hs : Split sep cs with
      | nil => exact absurd hs hne
      | cons p ps =>
        rw [hs] at ih
        simp only [List.length_cons] at ih ⊢
        rw [List.count_cons_of_ne (Ne.symm hc)]
        exact ih

/-- A piece has a second component after splitting exactly when it contains
the separator. -/
theorem Split_two_iff (sep : Char) (s : Str) :
    (∃ k x rest, Split sep s = k :: x :: rest) ↔ sep ∈ s := by
  have hlen := Split_length sep s
  constructor
  · rintro ⟨k, x, rest, h⟩
    rw [h] at hlen
    simp only [List.length_cons] at hlen
    exact List.count_pos_iff.mp (by omega)
  · intro hmem
    have hpos : 0 < s.count sep := List.count_pos_iff.mpr hmem
    cases hs : Split sep s with
    | nil => exact absurd hs (Split_ne_nil sep s)
    | cons k t =>
      cases t with
      | nil => rw [hs] at hlen; simp at hlen; omega
      | cons x rest => exact ⟨k, x, rest, rfl⟩

/-! ## Lemmas on maps -/

theorem mapGet_mapSet_self {β : Type} (m : List (Str × β)) (k : Str) (v : β) :
    mapGet (mapSet m k v) k = some v := by
  induction m with
  | nil => simp [mapSet, mapGet]
  | cons e rest ih =>
    obtain ⟨k', v'⟩ := e
    by_cases hk : k' = k
    · simp [mapSet, mapGet, hk]
    · simp [mapSet, mapGet, hk, ih]

theorem mapGet_mapSet_of_ne {β : Type} (m : List (Str × β)) (k k0 : Str) (v : β)
    (h : k0 ≠ k) : mapGet (mapSet m k0 v) k = mapGet m k := by
  induction m with
  | nil => simp [mapSet, mapGet, h]
  | cons e rest ih =>
    obtain ⟨k', v'⟩ := e
    by_cases hk : k' = k0
    · subst hk
      simp [mapSet, mapGet, h]
    · by_cases hk2 : k' = k
      · simp [mapSet, mapGet, hk, hk2]
        simp [← hk2, hk, mapGet]
      · simp [mapSet, mapGet, hk, hk2, ih]

theorem mapGet_eq_none_of_not_mem {β : Type} (m : List (Str × β)) (k : Str)
    (h : k ∉ m.map Prod.fst) : mapGet m k = none := by
  induction m with
  | nil => rfl
  | cons e rest ih =>
    obtain ⟨k', v'⟩ := e
    simp only [List.map_cons, List.mem_cons, not_or] at h
    simp [mapGet, Ne.symm h.1, ih h.2]

/-- The map built by storing the entries of `l` one after the other into `res`. -/
theorem mapGet_foldl_mapSet {β γ : Type} (f : β → γ) (l : List (Str × β))
    (hl : (l.map Prod.fst).Nodup) (res : List (Str × γ)) (k : Str) :
    mapGet (l.foldl (fun r kv => mapSet r kv.1 (f kv.2)) res) k =
      match mapGet l k with
      | some v => some (f v)
      | none => mapGet res k := by
  induction l generalizing res with
  | nil => rfl
  | cons e rest ih =>
    obtain ⟨k0, v0⟩ := e
    simp only [List.map_cons, List.nodup_cons] at hl
    simp only [List.foldl_cons]
    rw [ih hl.2]
    by_cases hk : k0 = k
    · subst hk
      rw [mapGet_eq_none_of_not_mem rest k0 hl.1]
      simp [mapGet, mapGet_mapSet_self]
    · simp only [mapGet, hk, if_false]
      rw [mapGet_mapSet_of_ne _ _ _ _ hk]

/-! ## Lemmas on the query helpers -/

theorem QueryToMap.loop_eq_none_iff (arr : List Str) (res : List (Str × Str)) :
    QueryToMap.loop arr res = none ↔ ∃ v ∈ arr, '=' ∉ v := by
  induction arr generalizing res with
  | nil => simp [QueryToMap.loop]
  | cons v arr ih =>
    by_cases hv : '=' ∈ v
    · obtain ⟨k, x, rest, hs⟩ := (Split_two_iff '=' v).mpr hv
      simp only [QueryToMap.loop, hs, ih, List.mem_cons, exists_eq_or_imp, hv, not_true_eq_false,
        false_or]
    · have : QueryToMap.loop (v :: arr) res = none := by
        unfold QueryToMap.loop
        split
        · rename_i k x rest hs
          exact absurd ((Split_two_iff '=' v).mp ⟨k, x, rest, hs⟩) hv
        · rfl
      simp only [this, List.mem_cons, exists_eq_or_imp, hv, not_false_eq_true, true_or]

theorem QueryToMap.loop_pairs (sprint : GoAny → Str) (l : List (Str × GoAny))
    (hk : ∀ e ∈ l, '=' ∉ e.1) (hv : ∀ e ∈ l, '=' ∉ sprint e.2) (res : List (Str × Str)) :
    QueryToMap.loop (l.map fun kv => kv.1 ++ '=' :: sprint kv.2) res =
      some (l.foldl (fun r kv => mapSet r kv.1 (sprint kv.2)) res) := by
  induction l generalizing res with
  | nil => rfl
  | cons e rest ih =>
    have h1 : Split '=' (e.1 ++ '=' :: sprint e.2) = [e.1, sprint e.2] := by
      rw [Split_append_sep '=' _ _ (hk e (by simp)),
        Split_of_not_mem '=' _ (hv e (by simp))]
    simp only [List.map_cons, QueryToMap.loop, h1, List.foldl_cons]
    exact ih (fun e he => hk e (by simp [he])) (fun e he => hv e (by simp [he])) _


/-! ## Lemmas on the client -/

theorem Duration.Seconds_one : Duration.Seconds 1 = 1 / 1000000000 := by
  have h1 : Int.tdiv 1 Second = 0 := by decide
  have h2 : Int.tmod 1 Second = 1 := by decide
  simp [Duration.Seconds, h1, h2]

theorem Duration.ofFloat_Seconds_one : Duration.ofFloat (Duration.Seconds 1) = 0 := by
  rw [Duration.Seconds_one]
  have h0 : (0 : ℚ) ≤ 1 / 1000000000 := by norm_num
  simp only [Duration.ofFloat, h0, if_true]
  rw [Int.floor_eq_iff]
  constructor <;> norm_num

/-! ## The query helpers: round trip and failure -/

/-- C1, as the code has it: for every non-empty mapping `M` (entries with
pairwise distinct keys, in any iteration order) in which every key and the
string form of every value contain neither `&` nor `=`,
`QueryToMap(MapToQuery(M))` returns a mapping equal to `M`: under every key it
holds the string form of the value `M` holds there, and nothing under a key
that is not in `M`. -/
theorem QueryToMap_MapToQuery (sprint : GoAny → Str) (M : List (Str × GoAny))
    (hmap : (M.map Prod.fst).Nodup) (hne : M ≠ [])
    (hkey : ∀ e ∈ M, '&' ∉ e.1 ∧ '=' ∉ e.1)
    (hval : ∀ e ∈ M, '&' ∉ sprint e.2 ∧ '=' ∉ sprint e.2) :
    ∃ res, QueryToMap (MapToQuery sprint M) = some res ∧
      ∀ k, mapGet res k = (mapGet M k).map sprint := by
  have hpieces : ∀ p ∈ M.map (fun kv => kv.1 ++ '=' :: sprint kv.2), '&' ∉ p := by
    intro p hp
    obtain ⟨e, he, rfl⟩ := List.mem_map.mp hp
    have h1 := (hkey e he).1
    have h2 := (hval e he).1
    simp only [List.mem_append, List.mem_cons, not_or]
    exact ⟨h1, by decide, h2⟩
  have hsplit := Split_Join '&' (M.map fun kv => kv.1 ++ '=' :: sprint kv.2)
    (by simpa using hne) hpieces
  refine ⟨M.foldl (fun r kv => mapSet r kv.1 (sprint kv.2)) [], ?_, ?_⟩
  · unfold QueryToMap MapToQuery
    rw [hsplit]
    exact QueryToMap.loop_pairs sprint M (fun e he => (hkey e he).2)
      (fun e he => (hval e he).2) []
  · intro k
    rw [mapGet_foldl_mapSet sprint M hmap [] k]
    cases mapGet M k <;> rfl

/-- C1, at the mapping `{"a": "1", "b": 2}`. -/
theorem QueryToMap_MapToQuery_witness :
    ∃ res, QueryToMap (MapToQuery sprintSample
        [("a".toList, GoAny.str "1".toList), ("b".toList, GoAny.int 2)]) = some res ∧
      ∀ k, mapGet res k =
        (mapGet [("a".toList, GoAny.str "1".toList), ("b".toList, GoAny.int 2)] k).map
          sprintSample :=
  QueryToMap_MapToQuery sprintSample
    [("a".toList, GoAny.str "1".toList), ("b".toList, GoAny.int 2)]
    (by decide) (List.cons_ne_nil _ _) (by decide) (by decide)

/-- C1 fails as stated: the empty mapping has no value with `&` or `=`, yet
`QueryToMap(MapToQuery({}))` panics; and for the mapping `{"a=b": "c"}`, whose
only value `c` has neither `&` nor `=`, the result holds nothing under the key
`a=b` and holds `b` under the key `a`. -/
theorem QueryToMap_MapToQuery_counterexample :
    QueryToMap (MapToQuery sprintSample []) = none ∧
    QueryToMap (MapToQuery sprintSample [("a=b".toList, GoAny.str "c".toList)]) =
      some [("a".toList, "b".toList)] ∧
    mapGet [("a".toList, "b".toList)] "a=b".toList = none ∧
    (mapGet [("a=b".toList, GoAny.str "c".toList)] "a=b".toList).map sprintSample =
      some "c".toList := by
  decide

/-- C7: `QueryToMap(s)` fails exactly when some `&`-separated piece of `s`
contains no `=`, and it returns a mapping exactly when every piece contains
one. -/
theorem QueryToMap_fails_iff (s : Str) :
    (QueryToMap s = none ↔ ∃ seg ∈ Split '&' s, '=' ∉ seg) ∧
    ((∃ res, QueryToMap s = some res) ↔ ∀ seg ∈ Split '&' s, '=' ∈ seg) := by
  have h : QueryToMap s = none ↔ ∃ seg ∈ Split '&' s, '=' ∉ seg :=
    QueryToMap.loop_eq_none_iff (Split '&' s) []
  refine ⟨h, ?_⟩
  constructor
  · rintro ⟨res, hres⟩ seg hseg
    by_contra hno
    have hnone := h.mpr ⟨seg, hseg, hno⟩
    rw [hnone] at hres
    exact Option.noConfusion hres
  · intro hall
    cases hq : QueryToMap s with
    | some res => exact ⟨res, rfl⟩
    | none =>
      obtain ⟨seg, hseg, hno⟩ := h.mp hq
      exact absurd (hall seg hseg) hno

/-! ## The client: timeout and redirect policy -/

/-- C9, what the code computes: whatever the arguments are, and also without
arguments, the timeout set on the client is
`time.Duration(time.Duration(1).Seconds())`, which is 0 nanoseconds (one
nanosecond is a billionth of a second, and the conversion drops the
fraction), not the 10^9 nanoseconds of one second. -/
theorem Request_client_Timeout (args : List Args) :
    (Request.client args).Timeout = 0 ∧ (Request.client args).Timeout ≠ Second := by
  have h : (Request.client args).Timeout = 0 := by
    cases args with
    | nil => exact Duration.ofFloat_Seconds_one
    | cons a rest =>
      simp only [Request.client]
      split <;> split <;> exact Duration.ofFloat_Seconds_one
  rw [h]
  exact ⟨rfl, by decide⟩

/-- C8: the client gets the redirect check that returns
`http.ErrUseLastResponse` exactly when no `Args` is supplied or the first
`Args` has `AllowRedirects = false`; it gets no redirect check exactly when an
`Args` with `AllowRedirects = true` is supplied. -/
theorem Request_client_CheckRedirect (args : List Args) :
    ((Request.client args).CheckRedirect = some CheckRedirectFn.returnErrUseLastResponse ↔
      args = [] ∨ ∃ arg rest, args = arg :: rest ∧ arg.AllowRedirects = false) ∧
    ((Request.client args).CheckRedirect = none ↔
      ∃ arg rest, args = arg :: rest ∧ arg.AllowRedirects = true) := by
  cases args with
  | nil => simp [Request.client]
  | cons a rest =>
    cases hr : a.AllowRedirects <;> by_cases hp : a.Proxies = [] <;>
      simp [Request.client, hr, hp]

/-! ## Lemmas on the cookie jar -/

/-- The index search followed by append-or-assign, as a recursion on the jar. -/
theorem UpdateCookies.step_cons (d : Cookie) (jar : List Cookie) (c : Cookie) :
    UpdateCookies.step (d :: jar) c =
      if c.Name = d.Name then c :: jar else d :: UpdateCookies.step jar c := by
  by_cases h : c.Name = d.Name
  · simp [UpdateCookies.step, UpdateCookies.index, h]
  · cases hi : UpdateCookies.index c.Name jar with
    | none => simp [UpdateCookies.step, UpdateCookies.index, h, hi]
    | some j => simp [UpdateCookies.step, UpdateCookies.index, h, hi]

theorem UpdateCookies.step_nil (c : Cookie) : UpdateCookies.step [] c = [c] := rfl

theorem UpdateCookies.step_names (jar : List Cookie) (c : Cookie) :
    (UpdateCookies.step jar c).map Cookie.Name =
      if c.Name ∈ jar.map Cookie.Name then jar.map Cookie.Name
      else jar.map Cookie.Name ++ [c.Name] := by
  induction jar with
  | nil => simp [UpdateCookies.step_nil]
  | cons d jar ih =>
    rw [UpdateCookies.step_cons]
    by_cases h : c.Name = d.Name
    · simp [h]
    · simp only [h, if_false, List.map_cons, ih, List.mem_cons, false_or]
      split <;> simp

theorem UpdateCookies.step_nodup (jar : List Cookie) (c : Cookie)
    (h : (jar.map Cookie.Name).Nodup) :
    ((UpdateCookies.step jar c).map Cookie.Name).Nodup := by
  rw [UpdateCookies.step_names]
  split
  · exact h
  · rename_i hc
    rw [List.nodup_append]
    refine ⟨h, List.nodup_singleton _, ?_⟩
    intro a ha hb
    simp only [List.mem_singleton] at hb
    subst hb
    exact hc ha

theorem UpdateCookies.step_mem_names (jar : List Cookie) (c : Cookie) (n : Str) :
    n ∈ (UpdateCookies.step jar c).map Cookie.Name ↔
      n ∈ jar.map Cookie.Name ∨ n = c.Name := by
  rw [UpdateCookies.step_names]
  split
  · rename_i hc
    constructor
    · exact Or.inl
    · rintro (h | h)
      · exact h
      · rw [h]; exact hc
  · simp

theorem UpdateCookies.foldl_nodup (cs : List Cookie) (jar : List Cookie)
    (h : (jar.map Cookie.Name).Nodup) :
    ((cs.foldl UpdateCookies.step jar).map Cookie.Name).Nodup := by
  induction cs generalizing jar with
  | nil => exact h
  | cons c cs ih => exact ih _ (UpdateCookies.step_nodup jar c h)

theorem UpdateCookies.foldl_mem_names (cs : List Cookie) (jar : List Cookie) (n : Str) :
    n ∈ (cs.foldl UpdateCookies.step jar).map Cookie.Name ↔
      n ∈ jar.map Cookie.Name ∨ n ∈ cs.map Cookie.Name := by
  induction cs generalizing jar with
  | nil => simp
  | cons c cs ih =>
    simp only [List.foldl_cons, ih, UpdateCookies.step_mem_names, List.map_cons, List.mem_cons]
    tauto

theorem applyAll_nodup (lists : List (List Cookie)) (ss : SessionStruct)
    (h : (ss.Cookies.map Cookie.Name).Nodup) :
    ((applyAll ss lists).Cookies.map Cookie.Name).Nodup := by
  induction lists generalizing ss with
  | nil => exact h
  | cons cs lists ih =>
    exact ih (ss.UpdateCookies cs) (UpdateCookies.foldl_nodup cs ss.Cookies h)

theorem applyAll_mem_names (lists : List (List Cookie)) (ss : SessionStruct) (n : Str) :
    n ∈ (applyAll ss lists).Cookies.map Cookie.Name ↔
      n ∈ ss.Cookies.map Cookie.Name ∨ n ∈ lists.flatten.map Cookie.Name := by
  induction lists generalizing ss with
  | nil => simp [applyAll]
  | cons cs lists ih =>
    have h := ih (ss.UpdateCookies cs)
    simp only [applyAll, List.foldl_cons] at h ⊢
    rw [h]
    simp only [SessionStruct.UpdateCookies, UpdateCookies.foldl_mem_names, List.flatten_cons,
      List.map_append, List.mem_append]
    tauto

theorem firstNamed_cons (X : Str) (d : Cookie) (jar : List Cookie) :
    firstNamed X (d :: jar) = if d.Name = X then some d else firstNamed X jar := by
  by_cases h : d.Name = X <;> simp [firstNamed, List.find?_cons, h]

theorem firstNamed_step (jar : List Cookie) (c : Cookie) (X : Str) :
    firstNamed X (UpdateCookies.step jar c) =
      if c.Name = X then some c else firstNamed X jar := by
  induction jar with
  | nil =>
    rw [UpdateCookies.step_nil, firstNamed_cons]
  | cons d jar ih =>
    rw [UpdateCookies.step_cons]
    by_cases h : c.Name = d.Name
    · rw [if_pos h, firstNamed_cons, firstNamed_cons, ← h]
      by_cases hx : c.Name = X
      · rw [if_pos hx, if_pos hx]
      · rw [if_neg hx, if_neg hx, if_neg hx]
    · rw [if_neg h, firstNamed_cons, firstNamed_cons, ih]
      by_cases hd : d.Name = X
      · have hx : ¬ c.Name = X := fun e => h (e.trans hd.symm)
        rw [if_pos hd, if_neg hx, if_pos hd]
      · rw [if_neg hd, if_neg hd]

theorem lastNamed_cons (X : Str) (c : Cookie) (cs : List Cookie) :
    lastNamed X (c :: cs) =
      match lastNamed X cs with
      | some d => some d
      | none => if c.Name = X then some c else none := by
  unfold lastNamed
  by_cases h : c.Name = X
  · rw [List.filter_cons_of_pos (by simpa using h), if_pos h]
    cases hf : List.filter (fun c => decide (c.Name = X)) cs with
    | nil => rfl
    | cons e es =>
      rw [List.getLast?_cons_cons]
      cases h2 : (e :: es).getLast? with
      | none => simp at h2
      | some d => rfl
  · rw [List.filter_cons_of_neg (by simpa using h), if_neg h]
    generalize (List.filter (fun c => decide (c.Name = X)) cs).getLast? = o
    cases o <;> rfl

theorem firstNamed_foldl (cs : List Cookie) (jar : List Cookie) (X : Str) :
    firstNamed X (cs.foldl UpdateCookies.step jar) =
      match lastNamed X cs with
      | some d => some d
      | none => firstNamed X jar := by
  induction cs generalizing jar with
  | nil => rfl
  | cons c cs ih =>
    rw [List.foldl_cons, ih, lastNamed_cons, firstNamed_step]
    cases lastNamed X cs with
    | some d => rfl
    | none => by_cases h : c.Name = X <;> simp [h]

theorem GetCookie_eq_firstNamed (cookies : List Cookie) (X : Str) :
    GetCookie cookies X =
      match firstNamed X cookies with
      | some c => c.Value
      | none => [] := by
  induction cookies with
  | nil => rfl
  | cons d rest ih =>
    by_cases h : d.Name = X
    · simp [GetCookie, firstNamed, List.find?_cons, h]
    · simp only [GetCookie, h, if_false, ih, firstNamed, List.find?_cons, decide_False]

theorem allNamed_cons (X : Str) (d : Cookie) (jar : List Cookie) :
    allNamed X (d :: jar) = if d.Name = X then d :: allNamed X jar else allNamed X jar := by
  by_cases h : d.Name = X <;> simp [allNamed, List.filter_cons, h]

theorem allNamed_step (jar : List Cookie) (c : Cookie) (X : Str) :
    allNamed X (UpdateCookies.step jar c) =
      if c.Name = X then c :: (allNamed X jar).tail else allNamed X jar := by
  induction jar with
  | nil =>
    rw [UpdateCookies.step_nil, allNamed_cons]
    rfl
  | cons d jar ih =>
    rw [UpdateCookies.step_cons]
    by_cases h : c.Name = d.Name
    · rw [if_pos h, allNamed_cons, allNamed_cons, ← h]
      by_cases hx : c.Name = X
      · rw [if_pos hx, if_pos hx, if_pos hx, List.tail_cons]
      · rw [if_neg hx, if_neg hx, if_neg hx]
    · rw [if_neg h, allNamed_cons, allNamed_cons, ih]
      by_cases hd : d.Name = X
      · have hx : ¬ c.Name = X := fun e => h (e.trans hd.symm)
        simp only [if_pos hd, if_neg hx]
      · simp only [if_neg hd]

theorem allNamed_foldl (cs : List Cookie) (jar : List Cookie) (X : Str) :
    allNamed X (cs.foldl UpdateCookies.step jar) =
      match lastNamed X cs with
      | some d => d :: (allNamed X jar).tail
      | none => allNamed X jar := by
  induction cs generalizing jar with
  | nil => rfl
  | cons c cs ih =>
    rw [List.foldl_cons, ih, lastNamed_cons, allNamed_step]
    cases lastNamed X cs with
    | some d => by_cases h : c.Name = X <;> simp [h]
    | none => by_cases h : c.Name = X <;> simp [h]

theorem lastNamed_eq_none (X : Str) (cs : List Cookie) (h : X ∉ cs.map Cookie.Name) :
    lastNamed X cs = none := by
  induction cs with
  | nil => rfl
  | cons c cs ih =>
    simp only [List.map_cons, List.mem_cons, not_or] at h
    rw [lastNamed_cons, ih h.2, if_neg (Ne.symm h.1)]

theorem allNamed_eq_nil (X : Str) (jar : List Cookie) (h : X ∉ jar.map Cookie.Name) :
    allNamed X jar = [] := by
  induction jar with
  | nil => rfl
  | cons d jar ih =>
    simp only [List.map_cons, List.mem_cons, not_or] at h
    rw [allNamed_cons, if_neg (Ne.symm h.1), ih h.2]

theorem allNamed_tail_of_nodup (X : Str) (jar : List Cookie)
    (h : (jar.map Cookie.Name).Nodup) : (allNamed X jar).tail = [] := by
  induction jar with
  | nil => rfl
  | cons d jar ih =>
    simp only [List.map_cons, List.nodup_cons] at h
    rw [allNamed_cons]
    by_cases hd : d.Name = X
    · rw [if_pos hd, List.tail_cons]
      exact allNamed_eq_nil X jar (hd ▸ h.1)
    · rw [if_neg hd]
      exact ih h.2

theorem SessionStruct.prepare_fst (ss : SessionStruct) (args : List Args) :
    (ss.prepare args).1 = ss.UpdateCookies (args.headD Args.zero).Cookies := by
  cases args <;> rfl

theorem SessionStruct.prepare_snd_Cookies (ss : SessionStruct) (args : List Args) :
    ((ss.prepare args).2.headD Args.zero).Cookies =
      (ss.UpdateCookies (args.headD Args.zero).Cookies).Cookies := by
  cases args <;> rfl

theorem SessionStruct.prepare_request_Cookies (marshal : GoAny → Str × Option Str)
    (sprint : GoAny → Str) (method urlStr : Str) (ss : SessionStruct) (args : List Args) :
    (Request.request marshal sprint method urlStr (ss.prepare args).2).Cookies =
      (ss.UpdateCookies (args.headD Args.zero).Cookies).Cookies := by
  cases args <;> rfl

/-! ## The cookie jar: count, last write, what is sent -/

/-- C2: after any sequence of cookie lists is applied with `UpdateCookies` to
a fresh `Session()`, the jar has as many entries as there are distinct names
among all the applied cookies, and no two entries of the jar have the same
name. -/
theorem applyAll_Session_count (lists : List (List Cookie)) :
    (applyAll Session lists).Cookies.length =
        (lists.flatten.map Cookie.Name).toFinset.card ∧
      ((applyAll Session lists).Cookies.map Cookie.Name).Nodup := by
  have hnd := applyAll_nodup lists Session List.nodup_nil
  refine ⟨?_, hnd⟩
  have hset : ((applyAll Session lists).Cookies.map Cookie.Name).toFinset =
      (lists.flatten.map Cookie.Name).toFinset := by
    ext n
    simp only [List.mem_toFinset]
    rw [applyAll_mem_names]
    simp [Session]
  rw [← hset, List.toFinset_card_of_nodup hnd, List.length_map]

/-- C3: for every jar and every cookie list `cs` whose last cookie named `X`
is `c`, after `UpdateCookies(cs)` the lookup of `X` in the jar (the first
entry of that name, as `GetCookie` reads it) is `c` and returns the value of
`c`; in particular after two responses are absorbed one after the other, the
second of which sets `X`, the jar holds the value from the second. -/
theorem UpdateCookies_last_write_wins (ss : SessionStruct) (cs : List Cookie) (X : Str)
    (c : Cookie) (h : lastNamed X cs = some c) :
    firstNamed X (ss.UpdateCookies cs).Cookies = some c ∧
      GetCookie (ss.UpdateCookies cs).Cookies X = c.Value ∧
      ∀ first : List Cookie,
        GetCookie ((ss.UpdateCookies first).UpdateCookies cs).Cookies X = c.Value := by
  have key : ∀ jar : List Cookie, firstNamed X (cs.foldl UpdateCookies.step jar) = some c := by
    intro jar
    rw [firstNamed_foldl, h]
  refine ⟨key _, ?_, ?_⟩
  · rw [GetCookie_eq_firstNamed]
    simp only [SessionStruct.UpdateCookies, key]
  · intro first
    rw [GetCookie_eq_firstNamed]
    simp only [SessionStruct.UpdateCookies, key]

/-- C3, at a jar holding `X=1`, absorbing `X=2, Y=5, X=3`. -/
theorem UpdateCookies_last_write_wins_witness :
    firstNamed "X".toList
        (SessionStruct.UpdateCookies { Cookies := [mkCookie "X" "1"] }
          [mkCookie "X" "2", mkCookie "Y" "5", mkCookie "X" "3"]).Cookies =
        some (mkCookie "X" "3") ∧
      GetCookie
        (SessionStruct.UpdateCookies { Cookies := [mkCookie "X" "1"] }
          [mkCookie "X" "2", mkCookie "Y" "5", mkCookie "X" "3"]).Cookies "X".toList =
        (mkCookie "X" "3").Value ∧
      ∀ first : List Cookie,
        GetCookie
          ((SessionStruct.UpdateCookies { Cookies := [mkCookie "X" "1"] } first).UpdateCookies
            [mkCookie "X" "2", mkCookie "Y" "5", mkCookie "X" "3"]).Cookies "X".toList =
          (mkCookie "X" "3").Value :=
  UpdateCookies_last_write_wins { Cookies := [mkCookie "X" "1"] }
    [mkCookie "X" "2", mkCookie "Y" "5", mkCookie "X" "3"] "X".toList (mkCookie "X" "3")
    (by decide)

/-- C4, as the code has it: in `SessionStruct.Request` the cookies of the call
are stored into the jar with `UpdateCookies` before anything is sent, and the
jar that results is, whole and in its order, the session's jar from then on,
the cookie list of the arguments handed to `Request`, and the cookie list of
the request handed to the transport.  So for every jar and every name `X`
whose last cookie among the cookies of the call is `c` (also when the jar
holds a cookie named `X`), the outgoing cookies named `X` are `c` in the place
of the jar's first cookie of that name, followed by the jar's further cookies
of that name; the first of them, the one `GetCookie` reads, is `c`; and when
the names of the jar are pairwise distinct `c` is the only outgoing cookie
named `X`.  The cookies the jar holds under a name that is not among the
cookies of the call go out as they are stored. -/
theorem SessionStruct_prepare_call_wins (marshal : GoAny → Str × Option Str)
    (sprint : GoAny → Str) (method urlStr : Str) (ss : SessionStruct) (args : List Args) :
    (ss.prepare args).1 = ss.UpdateCookies (args.headD Args.zero).Cookies ∧
    ((ss.prepare args).2.headD Args.zero).Cookies = (ss.prepare args).1.Cookies ∧
    (Request.request marshal sprint method urlStr (ss.prepare args).2).Cookies =
      (ss.prepare args).1.Cookies ∧
    (∀ (X : Str) (c : Cookie), lastNamed X (args.headD Args.zero).Cookies = some c →
      allNamed X ((ss.prepare args).2.headD Args.zero).Cookies =
          c :: (allNamed X ss.Cookies).tail ∧
        firstNamed X ((ss.prepare args).2.headD Args.zero).Cookies = some c ∧
        GetCookie ((ss.prepare args).2.headD Args.zero).Cookies X = c.Value ∧
        ((ss.Cookies.map Cookie.Name).Nodup →
          allNamed X ((ss.prepare args).2.headD Args.zero).Cookies = [c])) ∧
    (∀ Y : Str, Y ∉ (args.headD Args.zero).Cookies.map Cookie.Name →
      allNamed Y ((ss.prepare args).2.headD Args.zero).Cookies = allNamed Y ss.Cookies) := by
  have hfst := SessionStruct.prepare_fst ss args
  have hsnd := SessionStruct.prepare_snd_Cookies ss args
  have hreq := SessionStruct.prepare_request_Cookies marshal sprint method urlStr ss args
  refine ⟨hfst, ?_, ?_, ?_, ?_⟩
  · rw [hsnd, hfst]
  · rw [hreq, hfst]
  · intro X c h
    rw [hsnd]
    simp only [SessionStruct.UpdateCookies]
    have hall : allNamed X ((args.headD Args.zero).Cookies.foldl UpdateCookies.step ss.Cookies) =
        c :: (allNamed X ss.Cookies).tail := by
      rw [allNamed_foldl, h]
    have hfirst : firstNamed X
        ((args.headD Args.zero).Cookies.foldl UpdateCookies.step ss.Cookies) = some c := by
      rw [firstNamed_foldl, h]
    refine ⟨hall, hfirst, ?_, ?_⟩
    · rw [GetCookie_eq_firstNamed, hfirst]
    · intro hnd
      rw [hall, allNamed_tail_of_nodup X ss.Cookies hnd]
  · intro Y hY
    rw [hsnd]
    simp only [SessionStruct.UpdateCookies]
    rw [allNamed_foldl, lastNamed_eq_none Y _ hY]

/-- C4, at a jar holding `X=old` and `Y=keep` and a call that supplies
`X=new`: the cookies sent are `X=new` and `Y=keep`. -/
theorem SessionStruct_prepare_call_wins_witness :
    ((SessionStruct.prepare { Cookies := [mkCookie "X" "old", mkCookie "Y" "keep"] }
        [{ Args.zero with Cookies := [mkCookie "X" "new"] }]).2.headD Args.zero).Cookies =
      [mkCookie "X" "new", mkCookie "Y" "keep"] ∧
    (Request.request marshalSample sprintSample "GET".toList "http://localhost:8080/".toList
        (SessionStruct.prepare { Cookies := [mkCookie "X" "old", mkCookie "Y" "keep"] }
          [{ Args.zero with Cookies := [mkCookie "X" "new"] }]).2).Cookies =
      [mkCookie "X" "new", mkCookie "Y" "keep"] ∧
    allNamed "X".toList
        ((SessionStruct.prepare { Cookies := [mkCookie "X" "old", mkCookie "Y" "keep"] }
          [{ Args.zero with Cookies := [mkCookie "X" "new"] }]).2.headD Args.zero).Cookies =
      [mkCookie "X" "new"] ∧
    allNamed "Y".toList
        ((SessionStruct.prepare { Cookies := [mkCookie "X" "old", mkCookie "Y" "keep"] }
          [{ Args.zero with Cookies := [mkCookie "X" "new"] }]).2.headD Args.zero).Cookies =
      [mkCookie "Y" "keep"] := by
  have h := SessionStruct_prepare_call_wins marshalSample sprintSample "GET".toList
    "http://localhost:8080/".toList { Cookies := [mkCookie "X" "old", mkCookie "Y" "keep"] }
    [{ Args.zero with Cookies := [mkCookie "X" "new"] }]
  refine ⟨?_, ?_, ?_, ?_⟩
  · rw [h.2.1, h.1]
    decide
  · rw [h.2.2.1, h.1]
    decide
  · exact (h.2.2.2.1 "X".toList (mkCookie "X" "new") (by decide)).2.2.2 (by decide)
  · rw [h.2.2.2.2 "Y".toList (by decide)]
    decide

/-- C4 fails as stated: with `X=old` in the jar and `X=new` among the cookies
of the call, the name `X` is in both, and the cookie list handed to `Request`
is the single cookie `X=new`, the one of the call, not the stored `X=old`. -/
theorem SessionStruct_prepare_counterexample :
    GetCookie (Session.UpdateCookies [mkCookie "X" "old"]).Cookies "X".toList = "old".toList ∧
    GetCookie [mkCookie "X" "new"] "X".toList = "new".toList ∧
    ((SessionStruct.prepare (Session.UpdateCookies [mkCookie "X" "old"])
        [{ Args.zero with Cookies := [mkCookie "X" "new"] }]).2.headD Args.zero).Cookies =
      [mkCookie "X" "new"] ∧
    GetCookie
      ((SessionStruct.prepare (Session.UpdateCookies [mkCookie "X" "old"])
        [{ Args.zero with Cookies := [mkCookie "X" "new"] }]).2.headD Args.zero).Cookies
      "X".toList ≠ "old".toList := by
  decide

/-! ## The response: cookies' domain, streaming or buffered -/

theorem Request_of_ok (Do : Client → HttpRequest → DoResult)
    (marshal : GoAny → Str × Option Str) (sprint : GoAny → Str) (method urlStr : Str)
    (args : List Args) (resp : HttpResponse)
    (hok : Do (Request.client args) (Request.request marshal sprint method urlStr args) =
      DoResult.ok resp) :
    Request Do marshal sprint method urlStr args = Request.respond resp := by
  simp only [Request, hok]

theorem Request.client_setFirstStream (b : Bool) (args : List Args) :
    Request.client (setFirstStream b args) = Request.client args := by
  cases args <;> rfl

theorem Request.request_setFirstStream (marshal : GoAny → Str × Option Str)
    (sprint : GoAny → Str) (method urlStr : Str) (b : Bool) (args : List Args) :
    Request.request marshal sprint method urlStr (setFirstStream b args) =
      Request.request marshal sprint method urlStr args := by
  cases args <;> rfl

/-- C5, as the code has it: for every response that is not an event stream,
each cookie of `Response.Cookies` is the cookie `resp.Cookies()` gave with its
`Domain` overwritten to the host of the answered request, whether or not a
`Domain` was already set; every other field of the cookie is kept. -/
theorem Request_buffered_Domain (Do : Client → HttpRequest → DoResult)
    (marshal : GoAny → Str × Option Str) (sprint : GoAny → Str) (method urlStr : Str)
    (args : List Args) (resp : HttpResponse)
    (hok : Do (Request.client args) (Request.request marshal sprint method urlStr args) =
      DoResult.ok resp)
    (hct : HeaderGet resp.Header "Content-Type".toList ≠ "text/event-stream".toList) :
    (Request Do marshal sprint method urlStr args).Cookies =
        resp.Cookies.map (fun c => { c with Domain := resp.RequestHost }) ∧
      ∀ c ∈ (Request Do marshal sprint method urlStr args).Cookies,
        c.Domain = resp.RequestHost := by
  rw [Request_of_ok Do marshal sprint method urlStr args resp hok]
  have hct2 : ¬ "text/event-stream".toList = HeaderGet resp.Header "Content-Type".toList :=
    fun e => hct e.symm
  have hc : (Request.respond resp).Cookies =
      resp.Cookies.map (fun c => { c with Domain := resp.RequestHost }) := by
    simp only [Request.respond, hct2, if_false]
  refine ⟨hc, ?_⟩
  intro c hmem
  rw [hc] at hmem
  obtain ⟨d, _, rfl⟩ := List.mem_map.mp hmem
  rfl

/-- C5, at a `text/html` response from `localhost:8080`. -/
theorem Request_buffered_Domain_witness :
    (Request (DoConst respBuffered) marshalSample sprintSample "GET".toList
        "http://localhost:8080/".toList []).Cookies =
        respBuffered.Cookies.map (fun c => { c with Domain := respBuffered.RequestHost }) ∧
      ∀ c ∈ (Request (DoConst respBuffered) marshalSample sprintSample "GET".toList
          "http://localhost:8080/".toList []).Cookies,
        c.Domain = respBuffered.RequestHost :=
  Request_buffered_Domain (DoConst respBuffered) marshalSample sprintSample "GET".toList
    "http://localhost:8080/".toList [] respBuffered rfl (by decide)

/-- C5 fails as stated: the `text/html` response from `localhost:8080` sets a
cookie whose `Domain` is already `example.com`; in `Response.Cookies` the
cookie has the `Domain` `localhost:8080`, it did not keep `example.com`. -/
theorem Request_buffered_Domain_counterexample :
    respBuffered.Cookies.map Cookie.Domain = ["example.com".toList] ∧
    HeaderGet respBuffered.Header "Content-Type".toList ≠ "text/event-stream".toList ∧
    (Request (DoConst respBuffered) marshalSample sprintSample "GET".toList
        "http://localhost:8080/".toList []).Cookies.map Cookie.Domain =
      ["localhost:8080".toList] := by
  decide

/-- C10: for every response the transport returns without error, if its
`Content-Type` header is exactly `text/event-stream` then `RespBody` is the
body stream and `Content` and `Text` are empty; otherwise `Content` is the
whole body, `Text` is the same bytes and `RespBody` is unset; and the
`Response` is the same whatever `Args.Stream` is, the transport being the
same. -/
theorem Request_stream_or_buffer (Do : Client → HttpRequest → DoResult)
    (marshal : GoAny → Str × Option Str) (sprint : GoAny → Str) (method urlStr : Str)
    (args : List Args) (resp : HttpResponse)
    (hok : Do (Request.client args) (Request.request marshal sprint method urlStr args) =
      DoResult.ok resp) :
    (HeaderGet resp.Header "Content-Type".toList = "text/event-stream".toList →
        (Request Do marshal sprint method urlStr args).RespBody = some resp.Body ∧
        (Request Do marshal sprint method urlStr args).Content = [] ∧
        (Request Do marshal sprint method urlStr args).Text = []) ∧
      (HeaderGet resp.Header "Content-Type".toList ≠ "text/event-stream".toList →
        (Request Do marshal sprint method urlStr args).RespBody = none ∧
        (Request Do marshal sprint method urlStr args).Content = resp.Body ∧
        (Request Do marshal sprint method urlStr args).Text = resp.Body) ∧
      ∀ b : Bool, Request Do marshal sprint method urlStr (setFirstStream b args) =
        Request Do marshal sprint method urlStr args := by
  refine ⟨?_, ?_, ?_⟩
  · intro h
    rw [Request_of_ok Do marshal sprint method urlStr args resp hok]
    simp only [Request.respond, h, if_true, Response.zero, and_self]
  · intro h
    have h2 : ¬ "text/event-stream".toList = HeaderGet resp.Header "Content-Type".toList :=
      fun e => h e.symm
    rw [Request_of_ok Do marshal sprint method urlStr args resp hok]
    simp only [Request.respond, h2, if_false, Response.zero, and_self]
  · intro b
    simp only [Request, Request.client_setFirstStream, Request.request_setFirstStream]

/-- C10, at an event-stream response to a call with `Stream = false`: the
body stream is handed over unread, and setting `Stream` changes nothing. -/
theorem Request_stream_or_buffer_witness :
    (Request (DoConst respStream) marshalSample sprintSample "GET".toList
        "http://localhost:8080/".toList [Args.zero]).RespBody = some "data: 1".toList ∧
      (Request (DoConst respStream) marshalSample sprintSample "GET".toList
        "http://localhost:8080/".toList [Args.zero]).Content = [] ∧
      (Request (DoConst respStream) marshalSample sprintSample "GET".toList
        "http://localhost:8080/".toList [Args.zero]).Text = [] ∧
      ∀ b : Bool,
        Request (DoConst respStream) marshalSample sprintSample "GET".toList
          "http://localhost:8080/".toList (setFirstStream b [Args.zero]) =
        Request (DoConst respStream) marshalSample sprintSample "GET".toList
          "http://localhost:8080/".toList [Args.zero] :=
  have h := Request_stream_or_buffer (DoConst respStream) marshalSample sprintSample
    "GET".toList "http://localhost:8080/".toList [Args.zero] respStream rfl
  ⟨(h.1 (by decide)).1, (h.1 (by decide)).2.1, (h.1 (by decide)).2.2, h.2.2⟩

/-! ## The body encoder -/

theorem jsonEncodeFields_a_1 (other : Nat → Option Str) :
    jsonEncodeFields other [("a".toList, GoAny.int 1)] = some [("a".toList, "1".toList)] := by
  rfl

theorem jsonObject_a_1 : jsonObject [("a".toList, "1".toList)] = "\x7b\"a\":1\x7d".toList := by
  decide

theorem getData_json (marshal : GoAny → Str × Option Str) (sprint : GoAny → Str)
    (data : GoAny) (h : List (Str × Str))
    (hj : mapGet h "Content-Type".toList = some "application/json".toList) :
    getData marshal sprint data h = (marshal data).1 := by
  have hidx : headerIndex h "Content-Type".toList = "application/json".toList := by
    simp only [headerIndex, hj, Option.getD_some]
  simp only [getData, hidx, if_true]

theorem getData_not_json (marshal : GoAny → Str × Option Str) (sprint : GoAny → Str)
    (data : GoAny) (h : List (Str × Str))
    (hj : mapGet h "Content-Type".toList ≠ some "application/json".toList) :
    getData marshal sprint data h =
      match data with
      | .str s => s
      | .dict value => MapToQuery sprint value
      | _ => [] := by
  have hne : ¬ headerIndex h "Content-Type".toList = "application/json".toList := by
    intro e
    unfold headerIndex at e
    cases hg : mapGet h "Content-Type".toList with
    | none =>
      rw [hg] at e
      exact absurd e (by decide)
    | some v =>
      rw [hg] at e hj
      exact hj (by simpa using e)
  simp only [getData, hne, if_false]

/-- C6: when the header mapping declares `Content-Type: application/json`
(the key `Content-Type` holds `application/json`), `getData(data, h)` is the
JSON serialization of `data` whatever its shape, before any other branch is
looked at: a string gives its JSON string literal (quoted and escaped, not the
string itself), a mapping gives the JSON object of its encoded entries (not
the `k=v&...` form), and the mapping `{"a":1}` gives exactly `{"a":1}`; when
the library reports an error the body is empty.  Otherwise, whatever
`json.Marshal` would give, a string is returned unchanged, a key/value mapping
gives `MapToQuery` of it, and any other shape gives the empty body. -/
theorem getData_by_content_type (other : Nat → Option Str)
    (marshal : GoAny → Str × Option Str) (sprint : GoAny → Str)
    (data : GoAny) (h : List (Str × Str)) :
    (mapGet h "Content-Type".toList = some "application/json".toList →
        (∀ bytes, jsonEncode other data = some bytes →
          getData (jsonMarshal other) sprint data h = bytes) ∧
        (jsonEncode other data = none → getData (jsonMarshal other) sprint data h = []) ∧
        (∀ s, data = GoAny.str s →
          getData (jsonMarshal other) sprint data h = jsonString s) ∧
        (∀ m fields, data = GoAny.dict m → jsonEncodeFields other m = some fields →
          getData (jsonMarshal other) sprint data h = jsonObject fields) ∧
        getData (jsonMarshal other) sprint (GoAny.dict [("a".toList, GoAny.int 1)]) h =
          "\x7b\"a\":1\x7d".toList) ∧
      (mapGet h "Content-Type".toList ≠ some "application/json".toList →
        (∀ s, data = GoAny.str s → getData marshal sprint data h = s) ∧
        (∀ m, data = GoAny.dict m → getData marshal sprint data h = MapToQuery sprint m) ∧
        ((∀ s, data ≠ GoAny.str s) → (∀ m, data ≠ GoAny.dict m) →
          getData marshal sprint data h = [])) := by
  constructor
  · intro hj
    refine ⟨?_, ?_, ?_, ?_, ?_⟩
    · intro bytes hb
      rw [getData_json _ _ _ _ hj]
      simp only [jsonMarshal, hb]
    · intro hb
      rw [getData_json _ _ _ _ hj]
      simp only [jsonMarshal, hb]
    · rintro s rfl
      rw [getData_json _ _ _ _ hj]
      simp only [jsonMarshal, jsonEncode]
    · rintro m fields rfl hf
      rw [getData_json _ _ _ _ hj]
      simp only [jsonMarshal, jsonEncode, hf, Option.map_some']
    · rw [getData_json _ _ _ _ hj]
      simp only [jsonMarshal, jsonEncode, jsonEncodeFields_a_1, Option.map_some',
        jsonObject_a_1]
  · intro hj
    have hg := getData_not_json marshal sprint data h hj
    refine ⟨?_, ?_, ?_⟩
    · rintro s rfl
      exact hg
    · rintro m rfl
      exact hg
    · intro hs hm
      rw [hg]
      cases data with
      | str s => exact absurd rfl (hs s)
      | dict m => exact absurd rfl (hm m)
      | int n => rfl
      | nil => rfl
      | other t => rfl

/-- C6, at the mapping `{"a":1}`, the string `a=1` and the two-entry mapping
`{"b":"x&y","a":1}` under `Content-Type: application/json`, and at the same
mapping `{"a":1}` under no header. -/
theorem getData_by_content_type_witness :
    getData marshalSample sprintSample (GoAny.dict [("a".toList, GoAny.int 1)])
        [("Content-Type".toList, "application/json".toList)] = "\x7b\"a\":1\x7d".toList ∧
    getData marshalSample sprintSample (GoAny.str "a=1".toList)
        [("Content-Type".toList, "application/json".toList)] = "\"a=1\"".toList ∧
    getData marshalSample sprintSample
        (GoAny.dict [("b".toList, GoAny.str "x&y".toList), ("a".toList, GoAny.int 1)])
        [("Content-Type".toList, "application/json".toList)] =
      "\x7b\"a\":1,\"b\":\"x\\u0026y\"\x7d".toList ∧
    getData marshalSample sprintSample (GoAny.dict [("a".toList, GoAny.int 1)]) [] =
      "a=1".toList := by
  have hj := (getData_by_content_type (fun _ => none) marshalSample sprintSample
    (GoAny.dict [("b".toList, GoAny.str "x&y".toList), ("a".toList, GoAny.int 1)])
    [("Content-Type".toList, "application/json".toList)]).1 (by decide)
  have hs := (getData_by_content_type (fun _ => none) marshalSample sprintSample
    (GoAny.str "a=1".toList)
    [("Content-Type".toList, "application/json".toList)]).1 (by decide)
  have hn := (getData_by_content_type (fun _ => none) marshalSample sprintSample
    (GoAny.dict [("a".toList, GoAny.int 1)]) []).2 (by decide)
  refine ⟨hj.2.2.2.2, ?_, ?_, ?_⟩
  · rw [marshalSample, hs.2.2.1 _ rfl]
    decide
  · rw [marshalSample, hj.2.2.2.1 _ [("b".toList, "\"x\\u0026y\"".toList),
      ("a".toList, "1".toList)] rfl (by decide)]
    decide
  · rw [hn.2.1 _ rfl]
    decide

end Requests
